import Mathlib

/-!
Verification of `act_to_hex.py`: a decoder for the Adobe Color Table (ACT)
palette format.  The script reads a byte sequence, rejects inputs shorter
than 768 bytes, slices the first 768 bytes into 256 RGB triplets, optionally
truncates the list with Python slice semantics, and prints each triplet as
an uppercase `#RRGGBB` hex string.

We embed the script shallowly: the byte sequence is a `List Nat` (each
element a byte value), the optional command-line limit is an `Option Int`
(Python integers may be negative), and the decode pipeline returns
`Except String (List String)` where the error carries the exact message of
the `SystemExit` raised by the size check.
-/

namespace ActToHex

/-- The character Python's `%X` format uses for the hex digit `n`
(`0`–`9` then uppercase `A`–`F`). -/
def hexDigit (n : Nat) : Char :=
  if n < 10 then Char.ofNat (48 + n) else Char.ofNat (55 + n)

/-- Fuel-driven accumulation of the base-16 digits of a natural number,
most significant first.  `fuel ≥ n` suffices since the argument is divided
by 16 at every step. -/
def hexDigitsAux : Nat → Nat → List Char → List Char
  | 0, _, acc => acc
  | _ + 1, 0, acc => acc
  | fuel + 1, n + 1, acc =>
      hexDigitsAux fuel ((n + 1) / 16) (hexDigit ((n + 1) % 16) :: acc)

/-- The uppercase base-16 digits of `n`, most significant first
(empty for `0`, which the width-2 padding below turns into `"00"`,
exactly as Python renders `0` under `%02X`). -/
def hexDigits (n : Nat) : List Char :=
  hexDigitsAux n n []

/-- Python's `f"{n:02X}"`: uppercase hexadecimal, zero-padded on the left
to a minimum width of two characters. -/
def fmt02X (n : Nat) : String :=
  ⟨List.replicate (2 - (hexDigits n).length) '0' ++ hexDigits n⟩

/-- Python's slice `xs[:stop]` for an integer `stop`: a non-negative stop
keeps the first `stop` elements; a negative stop counts from the end,
clamping at the empty list. -/
def pySliceTo {α : Type} (xs : List α) (stop : Int) : List α :=
  if 0 ≤ stop then xs.take stop.toNat
  else xs.take (xs.length - (-stop).toNat)

/-- `cols = [(rgb[i], rgb[i+1], rgb[i+2]) for i in range(0, 768, 3)]`:
the 256 RGB triplets read from the first 768 bytes.  `range(0, 768, 3)`
is `List.range' 0 256 3`; indexing uses `getD` with default `0`, which the
callers only invoke within bounds. -/
def cols (rgb : List Nat) : List (Nat × Nat × Nat) :=
  (List.range' 0 256 3).map fun i => (rgb.getD i 0, rgb.getD (i + 1) 0, rgb.getD (i + 2) 0)

/-- The message of the `SystemExit` raised by the size check:
`f"File too small ({len(data)} bytes). Not a standard ACT?"`. -/
def errMsg (n : Nat) : String :=
  "File too small (" ++ toString n ++ " bytes). Not a standard ACT?"

/-- One output line: `f"#{r:02X}{g:02X}{b:02X}"`. -/
def hexOfColor : Nat × Nat × Nat → String
  | (r, g, b) => "#" ++ fmt02X r ++ fmt02X g ++ fmt02X b

/-- The decode pipeline of the script, from the materialised bytes and the
already-parsed optional limit to the ordered list of printed lines, or the
`SystemExit` message when the input is shorter than 768 bytes. -/
def decode (data : List Nat) (limit : Option Int) : Except String (List String) :=
  if data.length < 768 then
    .error (errMsg data.length)
  else
    let rgb := data.take 768
    let cs := cols rgb
    let cs' := match limit with
      | none => cs
      | some m => pySliceTo cs m
    .ok (cs'.map hexOfColor)

/-- Observable outcome of one run of the script: exit status, stdout lines,
stderr lines. -/
structure ProcResult where
  exitCode : Nat
  stdoutLines : List String
  stderrLines : List String

/-- Modelled from the spec: the process-level wrapper.  The Python runtime's
handling of `raise SystemExit(msg)` (print `msg` to the error stream, exit
with status 1) is not part of the repository's source; the spec's §6 states
the exit status is 0 on normal completion and non-zero with the error
message on an error stream otherwise. -/
def runMain (data : List Nat) (limit : Option Int) : ProcResult :=
  match decode data limit with
  | .error msg => ⟨1, [], [msg]⟩
  | .ok lines => ⟨0, lines, []⟩

/-- A 768-byte buffer built by concatenating RGB triplets in order. -/
def buildBuf (ts : List (Nat × Nat × Nat)) : List Nat :=
  ts.flatMap fun c => [c.1, c.2.1, c.2.2]

/-- An uppercase hexadecimal digit character (`0`–`9` or `A`–`F`). -/
def isUpperHexDigit (c : Char) : Bool :=
  (decide (48 ≤ c.toNat) && decide (c.toNat ≤ 57)) ||
    (decide (65 ≤ c.toNat) && decide (c.toNat ≤ 70))

/-- A string of exactly two uppercase hexadecimal digit characters. -/
def twoUpperHex (s : String) : Prop :=
  s.data.length = 2 ∧ ∀ c ∈ s.data, isUpperHexDigit c = true

instance (s : String) : Decidable (twoUpperHex s) := by
  unfold twoUpperHex; infer_instance

end ActToHex

namespace ActToHex

lemma length_cols (rgb : List Nat) : (cols rgb).length = 256 := by
  simp [cols]

lemma getElem_cols (rgb : List Nat) (j : Nat) (h : j < (cols rgb).length) :
    (cols rgb)[j] =
      (rgb.getD (3 * j) 0, rgb.getD (3 * j + 1) 0, rgb.getD (3 * j + 2) 0) := by
  simp only [cols, List.getElem_map, List.getElem_range', Nat.zero_add]

lemma decode_ok_none (data : List Nat) (h : 768 ≤ data.length) :
    decode data none = .ok ((cols (data.take 768)).map hexOfColor) := by
  unfold decode
  rw [if_neg (by omega)]

lemma decode_ok_some (data : List Nat) (m : Int) (h : 768 ≤ data.length) :
    decode data (some m) = .ok ((pySliceTo (cols (data.take 768)) m).map hexOfColor) := by
  unfold decode
  rw [if_neg (by omega)]

lemma pySliceTo_subset {α : Type} (xs : List α) (m : Int) : pySliceTo xs m ⊆ xs := by
  unfold pySliceTo
  split <;> exact List.take_subset _ _

lemma mem_decode_ok (data : List Nat) (limit : Option Int) (out : List String)
    (h : 768 ≤ data.length) (hd : decode data limit = .ok out) :
    ∀ s ∈ out, ∃ c ∈ cols (data.take 768), s = hexOfColor c := by
  intro s hs
  cases limit with
  | none =>
      rw [decode_ok_none data h] at hd
      simp only [Except.ok.injEq] at hd
      subst hd
      obtain ⟨c, hc, rfl⟩ := List.mem_map.mp hs
      exact ⟨c, hc, rfl⟩
  | some m =>
      rw [decode_ok_some data m h] at hd
      simp only [Except.ok.injEq] at hd
      subst hd
      obtain ⟨c, hc, rfl⟩ := List.mem_map.mp hs
      exact ⟨c, pySliceTo_subset _ _ hc, rfl⟩

lemma getD_lt_256 (l : List Nat) (i : Nat) (hb : ∀ x ∈ l, x < 256) :
    l.getD i 0 < 256 := by
  by_cases h : i < l.length
  · rw [List.getD_eq_getElem l 0 h]
    exact hb _ (l.getElem_mem h)
  · rw [List.getD_eq_default l 0 (by omega)]
    omega

lemma cols_channels_lt (data : List Nat) (hb : ∀ x ∈ data, x < 256) :
    ∀ c ∈ cols (data.take 768), c.1 < 256 ∧ c.2.1 < 256 ∧ c.2.2 < 256 := by
  intro c hc
  obtain ⟨i, hi, rfl⟩ := List.mem_map.mp hc
  have hb' : ∀ x ∈ data.take 768, x < 256 := fun x hx => hb x (List.take_subset _ _ hx)
  exact ⟨getD_lt_256 _ _ hb', getD_lt_256 _ _ hb', getD_lt_256 _ _ hb'⟩

set_option maxRecDepth 4000 in
lemma fmt02X_byte (n : Nat) (h : n < 256) : twoUpperHex (fmt02X n) := by
  revert n h
  decide

lemma length_fmt02X (n : Nat) (h : n < 256) : (fmt02X n).length = 2 :=
  (fmt02X_byte n h).1

/-- C1: For every input byte sequence of length at least 768 and every optional
non-negative integer limit, `decode` produces exactly `min (limit ?? 256) 256`
formatted strings (256 when no limit is given). -/
theorem C1_output_count (data : List Nat) (h : 768 ≤ data.length) (limit : Option Nat) :
    ∃ out, decode data (limit.map fun n => (n : Int)) = .ok out ∧
      out.length = min (limit.getD 256) 256 := by
  cases limit with
  | none =>
      refine ⟨_, decode_ok_none data h, ?_⟩
      simp [length_cols]
  | some m =>
      refine ⟨_, decode_ok_some data (m : Int) h, ?_⟩
      simp [pySliceTo, Int.ofNat_nonneg, length_cols]

theorem C1_output_count_witness :
    ∃ out, decode (List.replicate 768 0) ((some 16).map fun n => (n : Int)) = .ok out ∧
      out.length = min ((some 16).getD 256) 256 :=
  C1_output_count (List.replicate 768 0) (List.length_replicate 768 0).ge (some 16)

/-- C2: For every input byte sequence shorter than 768 bytes, `decode` fails
with the `SystemExit` message reporting the observed length, no color strings
are produced, and the process exits with a non-zero status after writing the
message to the error stream. -/
theorem C2_too_small (data : List Nat) (limit : Option Int) (h : data.length < 768) :
    decode data limit = .error (errMsg data.length) ∧
      runMain data limit = ⟨1, [], [errMsg data.length]⟩ := by
  have hd : decode data limit = .error (errMsg data.length) := by
    unfold decode
    rw [if_pos h]
  refine ⟨hd, ?_⟩
  unfold runMain
  rw [hd]

theorem C2_too_small_witness :
    decode [] none = .error (errMsg 0) ∧
      runMain [] none = ⟨1, [], [errMsg 0]⟩ :=
  C2_too_small [] none (by simp)

/-- C5: For every input of length at least 768, a provided (non-negative)
limit keeps only the first `limit` colors in original order; limit 0 yields
an empty output, and any limit exceeding 256 keeps all 256 colors (same
result as no limit) without error. -/
theorem C5_truncation (data : List Nat) (h : 768 ≤ data.length) (m : Nat) :
    decode data (some (m : Int)) =
        .ok (((cols (data.take 768)).take m).map hexOfColor) ∧
      decode data (some (0 : Int)) = .ok [] ∧
      (256 < m → decode data (some (m : Int)) = decode data none) := by
  have hmain : ∀ k : Nat, decode data (some (k : Int)) =
      .ok (((cols (data.take 768)).take k).map hexOfColor) := by
    intro k
    rw [decode_ok_some data (k : Int) h]
    unfold pySliceTo
    rw [if_pos (Int.ofNat_nonneg k)]
    simp
  refine ⟨hmain m, ?_, ?_⟩
  · have h0 := hmain 0
    simpa using h0
  · intro hm
    rw [hmain m, decode_ok_none data h,
      List.take_of_length_le (by rw [length_cols]; omega)]

theorem C5_truncation_witness :
    decode (List.replicate 768 0) (some ((3 : Nat) : Int)) =
        .ok (((cols ((List.replicate 768 0).take 768)).take 3).map hexOfColor) ∧
      decode (List.replicate 768 0) (some (0 : Int)) = .ok [] ∧
      (256 < 3 → decode (List.replicate 768 0) (some ((3 : Nat) : Int)) =
        decode (List.replicate 768 0) none) :=
  C5_truncation (List.replicate 768 0) (List.length_replicate 768 0).ge 3

/-- C8: The size floor is the only failure mode: for every input of length at
least 768 and every limit (any integer or absent), `decode` returns a result
rather than an error. -/
theorem C8_no_other_failure (data : List Nat) (limit : Option Int)
    (h : 768 ≤ data.length) :
    ∃ out, decode data limit = .ok out := by
  cases limit with
  | none => exact ⟨_, decode_ok_none data h⟩
  | some m => exact ⟨_, decode_ok_some data m h⟩

theorem C8_no_other_failure_witness :
    ∃ out, decode (List.replicate 768 0) (some (-5)) = .ok out :=
  C8_no_other_failure (List.replicate 768 0) (some (-5)) (List.length_replicate 768 0).ge

/-- C9: A negative limit `-k` neither errors nor (for `0 < k < 256`) empties
the output: Python slice semantics keep the first `256 - k` colors when
`k < 256`, and yield the empty sequence when `k ≥ 256`. -/
theorem C9_negative_limit (data : List Nat) (h : 768 ≤ data.length)
    (k : Nat) (hk : 0 < k) :
    ∃ out, decode data (some (-(k : Int))) = .ok out ∧
      out.length = 256 - k ∧
      (k < 256 → out ≠ []) ∧
      (256 ≤ k → out = []) := by
  refine ⟨_, decode_ok_some data (-(k : Int)) h, ?_, ?_, ?_⟩
  all_goals
    unfold pySliceTo
  · rw [if_neg (by omega)]
    simp only [neg_neg, Int.toNat_ofNat, List.length_map, List.length_take, length_cols]
    omega
  · intro hlt
    rw [if_neg (by omega)]
    simp only [neg_neg, Int.toNat_ofNat, length_cols]
    intro hnil
    have := congrArg List.length hnil
    simp only [List.length_map, List.length_take, length_cols, List.length_nil] at this
    omega
  · intro hge
    rw [if_neg (by omega)]
    simp only [neg_neg, Int.toNat_ofNat, length_cols]
    have : 256 - k = 0 := by omega
    rw [this]
    simp

theorem C9_negative_limit_witness :
    ∃ out, decode (List.replicate 768 0) (some (-((10 : Nat) : Int))) = .ok out ∧
      out.length = 256 - 10 ∧
      (10 < 256 → out ≠ []) ∧
      (256 ≤ 10 → out = []) :=
  C9_negative_limit (List.replicate 768 0) (List.length_replicate 768 0).ge 10 (by omega)

/-- C3: Every retained color `(r, g, b)` is formatted as `#` followed by six
uppercase hexadecimal digits, two zero-padded digits per channel in `r`, `g`,
`b` order; channel value 0 renders as `"00"`, 255 as `"FF"`, 16 as `"10"`. -/
theorem C3_formatting (data : List Nat) (hb : ∀ x ∈ data, x < 256)
    (h : 768 ≤ data.length) (limit : Option Int) (out : List String)
    (hd : decode data limit = .ok out) :
    (∀ s ∈ out, ∃ c ∈ cols (data.take 768),
        s = "#" ++ fmt02X c.1 ++ fmt02X c.2.1 ++ fmt02X c.2.2 ∧
          twoUpperHex (fmt02X c.1) ∧ twoUpperHex (fmt02X c.2.1) ∧
          twoUpperHex (fmt02X c.2.2)) ∧
      fmt02X 0 = "00" ∧ fmt02X 255 = "FF" ∧ fmt02X 16 = "10" := by
  refine ⟨?_, by decide, by decide, by decide⟩
  intro s hs
  obtain ⟨c, hc, rfl⟩ := mem_decode_ok data limit out h hd s hs
  obtain ⟨h1, h2, h3⟩ := cols_channels_lt data hb c hc
  obtain ⟨r, g, b⟩ := c
  exact ⟨(r, g, b), hc, rfl, fmt02X_byte _ h1, fmt02X_byte _ h2, fmt02X_byte _ h3⟩

set_option maxRecDepth 100000 in
theorem C3_formatting_witness :
    fmt02X 0 = "00" ∧ fmt02X 255 = "FF" ∧ fmt02X 16 = "10" :=
  (C3_formatting (List.replicate 768 0)
    (fun x hx => by rw [List.eq_of_mem_replicate hx]; omega)
    (List.length_replicate 768 0).ge (some 1) ["#000000"] rfl).2

/-- C10: Every emitted line is exactly 7 characters long: `#` plus six hex
digits, because each channel value is a byte (0–255), so the width-2
zero-padded hex format never overflows two digits. -/
theorem C10_line_length (data : List Nat) (limit : Option Int) (out : List String)
    (hb : ∀ x ∈ data, x < 256) (h : 768 ≤ data.length)
    (hd : decode data limit = .ok out) :
    ∀ s ∈ out, s.length = 7 := by
  intro s hs
  obtain ⟨c, hc, rfl⟩ := mem_decode_ok data limit out h hd s hs
  obtain ⟨h1, h2, h3⟩ := cols_channels_lt data hb c hc
  obtain ⟨r, g, b⟩ := c
  have e : hexOfColor (r, g, b) = "#" ++ fmt02X r ++ fmt02X g ++ fmt02X b := rfl
  rw [e]
  simp only [String.length_append, length_fmt02X r h1, length_fmt02X g h2,
    length_fmt02X b h3]
  rfl

set_option maxRecDepth 100000 in
theorem C10_line_length_witness : String.length "#000000" = 7 :=
  C10_line_length (List.replicate 768 0) (some 1) ["#000000"]
    (fun x hx => by rw [List.eq_of_mem_replicate hx]; omega)
    (List.length_replicate 768 0).ge rfl "#000000" (List.mem_singleton_self _)

/-- C6: For every input of length at least 768, the decoding step before any
truncation yields exactly 256 colors, obtained by partitioning the first 768
bytes into consecutive non-overlapping 3-byte windows in byte order, each
window read as `(r, g, b)` in that byte order. -/
theorem C6_partition (data : List Nat) (h : 768 ≤ data.length) :
    (cols (data.take 768)).length = 256 ∧
      ∀ j, j < 256 →
        (cols (data.take 768)).getD j (0, 0, 0) =
          (data.getD (3 * j) 0, data.getD (3 * j + 1) 0, data.getD (3 * j + 2) 0) := by
  refine ⟨length_cols _, ?_⟩
  intro j hj
  have hlen : j < (cols (data.take 768)).length := by rw [length_cols]; omega
  rw [List.getD_eq_getElem _ _ hlen, getElem_cols]
  have htake : ∀ i, i < 768 → (data.take 768).getD i 0 = data.getD i 0 := by
    intro i hi
    have ht : i < (data.take 768).length := by rw [List.length_take]; omega
    have hdl : i < data.length := by omega
    rw [List.getD_eq_getElem _ _ ht, List.getD_eq_getElem _ _ hdl, List.getElem_take]
  rw [htake _ (by omega), htake _ (by omega), htake _ (by omega)]

theorem C6_partition_witness :
    (cols ((List.replicate 768 0).take 768)).length = 256 ∧
      (cols ((List.replicate 768 0).take 768)).getD 0 (0, 0, 0) =
        ((List.replicate 768 0).getD (3 * 0) 0, (List.replicate 768 0).getD (3 * 0 + 1) 0,
          (List.replicate 768 0).getD (3 * 0 + 2) 0) :=
  ⟨(C6_partition (List.replicate 768 0) (List.length_replicate 768 0).ge).1,
    (C6_partition (List.replicate 768 0) (List.length_replicate 768 0).ge).2 0 (by omega)⟩

lemma decode_take_eq (d1 d2 : List Nat) (limit : Option Int)
    (h : 768 ≤ d1.length) (hpre : d1.take 768 = d2.take 768) :
    decode d1 limit = decode d2 limit := by
  have h2 : 768 ≤ d2.length := by
    have hl := congrArg List.length hpre
    simp only [List.length_take] at hl
    omega
  cases limit with
  | none => rw [decode_ok_none d1 h, decode_ok_none d2 h2, hpre]
  | some m => rw [decode_ok_some d1 m h, decode_ok_some d2 m h2, hpre]

/-- C7: Bytes past index 767 never influence the output: two inputs of length
at least 768 agreeing on their first 768 bytes decode identically under any
limit; a 767-byte input fails, a 768-byte input yields 256 colors, and a
772-byte input yields the same colors as its first 768 bytes alone. -/
theorem C7_first_768_determines :
    (∀ (d1 d2 : List Nat) (limit : Option Int), 768 ≤ d1.length →
        d1.take 768 = d2.take 768 → decode d1 limit = decode d2 limit) ∧
      (∀ (d : List Nat) (limit : Option Int), d.length = 767 →
        decode d limit = .error (errMsg 767)) ∧
      (∀ d : List Nat, d.length = 768 →
        ∃ out, decode d none = .ok out ∧ out.length = 256) ∧
      (∀ (d : List Nat) (limit : Option Int), d.length = 772 →
        decode d limit = decode (d.take 768) limit) := by
  refine ⟨decode_take_eq, ?_, ?_, ?_⟩
  · intro d limit hlen
    unfold decode
    rw [if_pos (by omega), hlen]
  · intro d hlen
    refine ⟨_, decode_ok_none d (by omega), ?_⟩
    simp [length_cols]
  · intro d limit hlen
    refine decode_take_eq d (d.take 768) limit (by omega) ?_
    rw [List.take_take]
    simp

theorem C7_first_768_determines_witness :
    decode (List.replicate 767 0) none = .error (errMsg 767) ∧
      decode (List.replicate 772 0) none =
        decode ((List.replicate 772 0).take 768) none :=
  ⟨C7_first_768_determines.2.1 (List.replicate 767 0) none
      (List.length_replicate 767 0),
    C7_first_768_determines.2.2.2 (List.replicate 772 0) none
      (List.length_replicate 772 0)⟩

lemma length_buildBuf (ts : List (Nat × Nat × Nat)) :
    (buildBuf ts).length = 3 * ts.length := by
  induction ts with
  | nil => rfl
  | cons c rest ih =>
      simp only [buildBuf, List.flatMap_cons, List.length_append, List.length_cons,
        List.length_nil] at ih ⊢
      omega

lemma buildBuf_cons (c : Nat × Nat × Nat) (ts : List (Nat × Nat × Nat)) :
    buildBuf (c :: ts) = c.1 :: c.2.1 :: c.2.2 :: buildBuf ts := by
  simp [buildBuf]

lemma buildBuf_getD (ts : List (Nat × Nat × Nat)) :
    ∀ j, j < ts.length →
      ((buildBuf ts).getD (3 * j) 0, (buildBuf ts).getD (3 * j + 1) 0,
        (buildBuf ts).getD (3 * j + 2) 0) = ts.getD j (0, 0, 0) := by
  induction ts with
  | nil =>
      intro j hj
      simp at hj
  | cons c rest ih =>
      intro j hj
      rw [buildBuf_cons]
      cases j with
      | zero => simp
      | succ j' =>
          have g0 : (c.1 :: c.2.1 :: c.2.2 :: buildBuf rest).getD (3 * (j' + 1)) 0 =
              (buildBuf rest).getD (3 * j') 0 := by
            have e : 3 * (j' + 1) = 3 * j' + 1 + 1 + 1 := by ring
            rw [e, List.getD_cons_succ, List.getD_cons_succ, List.getD_cons_succ]
          have g1 : (c.1 :: c.2.1 :: c.2.2 :: buildBuf rest).getD (3 * (j' + 1) + 1) 0 =
              (buildBuf rest).getD (3 * j' + 1) 0 := by
            have e : 3 * (j' + 1) + 1 = 3 * j' + 1 + 1 + 1 + 1 := by ring
            rw [e, List.getD_cons_succ, List.getD_cons_succ, List.getD_cons_succ]
          have g2 : (c.1 :: c.2.1 :: c.2.2 :: buildBuf rest).getD (3 * (j' + 1) + 2) 0 =
              (buildBuf rest).getD (3 * j' + 2) 0 := by
            have e : 3 * (j' + 1) + 2 = 3 * j' + 2 + 1 + 1 + 1 := by ring
            rw [e, List.getD_cons_succ, List.getD_cons_succ, List.getD_cons_succ]
          rw [g0, g1, g2, List.getD_cons_succ]
          exact ih j' (by simp at hj; omega)

lemma cols_buildBuf (ts : List (Nat × Nat × Nat)) (h : ts.length = 256) :
    cols (buildBuf ts) = ts := by
  apply List.ext_getElem
  · rw [length_cols, h]
  · intro j h1 h2
    rw [getElem_cols]
    have hj : j < ts.length := by rw [length_cols] at h1; omega
    have hval := buildBuf_getD ts j hj
    rw [List.getD_eq_getElem _ _ hj] at hval
    exact hval

set_option maxRecDepth 100000 in
/-- C4: Round-trip on construction: decoding the 768-byte buffer built by
concatenating 256 known triplets reproduces exactly those triplets' hex
strings in the same order; and the buffer `[255,0,0, 0,255,0, 0,0,255]`
followed by 765 zero bytes with limit 3 yields exactly
`["#FF0000", "#00FF00", "#0000FF"]`. -/
theorem C4_roundtrip :
    (∀ ts : List (Nat × Nat × Nat), ts.length = 256 →
        decode (buildBuf ts) none = .ok (ts.map hexOfColor)) ∧
      decode ([255, 0, 0, 0, 255, 0, 0, 0, 255] ++ List.replicate 765 0) (some 3) =
        .ok ["#FF0000", "#00FF00", "#0000FF"] := by
  constructor
  · intro ts h
    have hlen : (buildBuf ts).length = 768 := by rw [length_buildBuf, h]
    rw [decode_ok_none _ (by omega)]
    have htake : (buildBuf ts).take 768 = buildBuf ts :=
      List.take_of_length_le (by omega)
    rw [htake, cols_buildBuf ts h]
  · rfl

theorem C4_roundtrip_witness :
    decode (buildBuf (List.replicate 256 ((0 : Nat), (0 : Nat), (0 : Nat)))) none =
      .ok ((List.replicate 256 ((0 : Nat), (0 : Nat), (0 : Nat))).map hexOfColor) :=
  C4_roundtrip.1 (List.replicate 256 ((0 : Nat), (0 : Nat), (0 : Nat)))
    (List.length_replicate 256 _)

end ActToHex
